import Mathlib

/-!
# A verification of the `lenet.ipynb` early-stopping training loop

This file gives a shallow embedding in Lean 4 of the `evaluate_model`
function of `src/notebooks/lenet.ipynb` (the hand-rolled early-stopping
training loop of the LeNet-5 tutorial notebook), and proves properties of
the loop: termination, the meaning of the validation frequency, the
monotonicity of the adaptive patience, the best-model tracking discipline,
bounds on by how many minibatches the loop trains, which parts of the
datasets it reads, and the frame condition that the datasets are not
modified.

The two compiled Theano functions `train_fn` (the SGD training step, which
mutates the network parameters) and `valid_fn` (the deterministic
misclassification-rate evaluation) are opaque from the point of view of the
loop, so they are modelled as explicit function arguments over an abstract
parameter type `σ`: `train_fn` maps the current parameters and a minibatch
to new parameters, `valid_fn` maps parameters and a minibatch to an error
value.  Error values (`numpy` float64 in the source) are modelled as
rationals; `np.inf`, the initial `best_validation_loss`, is modelled by
`none : Option ℚ`.  A dataset split (`numpy` array) is a Lean `List`, and
Python slicing `a[i*bs:(i+1)*bs]` is `(a.drop (i*bs)).take bs`.
`ZeroDivisionError`, which Python raises on `% 0`, is made explicit with
`Except`.

The state record carries two ghost fields used only by the specification,
never read by the loop itself: `train_calls` counts the calls to
`train_fn`, and `checks` logs every validation evaluation (the iteration
number, the validation loss obtained, and the parameters that were
evaluated).
-/

namespace LeNet5

/-- The exception Python raises when `%` is taken with a zero modulus,
as `(iter + 1) % validation_frequency` would if `validation_frequency = 0`. -/
inductive PyErr : Type
  | zeroDivision
deriving DecidableEq, Repr

/-- The `datasets` argument of `evaluate_model`: three (x, y) splits,
`datasets[0]` = train, `datasets[1]` = valid, `datasets[2]` = test. -/
structure Datasets (α β : Type) where
  train_x : List α
  train_y : List β
  valid_x : List α
  valid_y : List β
  test_x : List α
  test_y : List β
deriving DecidableEq

/-- Python slice `a[i * bs : (i + 1) * bs]`. -/
def slice {α : Type} (l : List α) (i bs : ℕ) : List α := (l.drop (i * bs)).take bs

/-- `np.mean` of a list of values (sum divided by length; `[].sum / 0 = 0`). -/
def meanQ (l : List ℚ) : ℚ := l.sum / l.length

/-- `patience = 10000  # look as this many examples regardless`. -/
def patience_init : ℕ := 10000

/-- `patience_increase = 2`. -/
def patience_increase : ℕ := 2

/-- `improvement_threshold = 0.995`. -/
def improvement_threshold : ℚ := 995 / 1000

/-- The values `evaluate_model` computes once on entry and never reassigns:
its two function arguments, `n_epochs`, `batch_size`, the three minibatch
counts and `validation_frequency`. -/
structure Config (σ α β : Type) where
  train_fn : σ → List α → List β → σ
  valid_fn : σ → List α → List β → ℚ
  n_epochs : ℕ
  batch_size : ℕ
  n_train_batches : ℕ
  n_valid_batches : ℕ
  n_test_batches : ℕ
  validation_frequency : ℕ

/-- Entry of `evaluate_model`: `n_*_batches = *_set_x.shape[0] // batch_size`
and `validation_frequency = min(n_train_batches, patience // 2)`, computed
from the initial `patience`. -/
def mkConfig {σ α β : Type} (train_fn : σ → List α → List β → σ)
    (valid_fn : σ → List α → List β → ℚ) (datasets : Datasets α β)
    (n_epochs batch_size : ℕ) : Config σ α β :=
  { train_fn := train_fn
    valid_fn := valid_fn
    n_epochs := n_epochs
    batch_size := batch_size
    n_train_batches := datasets.train_x.length / batch_size
    n_valid_batches := datasets.valid_x.length / batch_size
    n_test_batches := datasets.test_x.length / batch_size
    validation_frequency := min (datasets.train_x.length / batch_size) (patience_init / 2) }

/-- Ghost log entry for one validation evaluation: the training iteration
after which it ran, the validation loss obtained, and the parameters that
were evaluated. -/
structure ValCheck (σ : Type) where
  iter : ℕ
  loss : ℚ
  params : σ
deriving DecidableEq

/-- The mutable state of a run of `evaluate_model`: the network parameters
(mutated inside `train_fn`), the datasets (modelled as part of the store so
that the frame condition is provable), and the loop's local variables.
`train_calls` and `checks` are ghost instrumentation never read by the loop. -/
structure EvalState (σ α β : Type) where
  params : σ
  data : Datasets α β
  patience : ℕ
  best_validation_loss : Option ℚ
  best_iter : ℕ
  test_score : ℚ
  epoch : ℕ
  done_looping : Bool
  train_calls : ℕ
  checks : List (ValCheck σ)
deriving DecidableEq

/-- `x < b` where `b : Option ℚ` models a float that may be `np.inf`
(`none`); every rational is below infinity. -/
def ltInf (x : ℚ) : Option ℚ → Bool
  | none => true
  | some b => decide (x < b)

/-- `x < b * improvement_threshold` with `b` possibly `np.inf`. -/
def ltInfThresh (x : ℚ) : Option ℚ → Bool
  | none => true
  | some b => decide (x < b * improvement_threshold)

/-- `this_validation_loss = np.mean([valid_fn(valid_set_x[i*bs:(i+1)*bs],
valid_set_y[i*bs:(i+1)*bs]) for i in range(n_valid_batches)])`. -/
def Config.valLoss {σ α β : Type} (c : Config σ α β) (data : Datasets α β) (p : σ) : ℚ :=
  meanQ ((List.range c.n_valid_batches).map (fun i =>
    c.valid_fn p (slice data.valid_x i c.batch_size) (slice data.valid_y i c.batch_size)))

/-- `test_score = np.mean([valid_fn(test_set_x[i*bs:(i+1)*bs],
test_set_y[i*bs:(i+1)*bs]) for i in range(n_test_batches)])`. -/
def Config.testLoss {σ α β : Type} (c : Config σ α β) (data : Datasets α β) (p : σ) : ℚ :=
  meanQ ((List.range c.n_test_batches).map (fun i =>
    c.valid_fn p (slice data.test_x i c.batch_size) (slice data.test_y i c.batch_size)))

/-- `cost_ij = train_fn(train_set_x[mi*bs:(mi+1)*bs], train_set_y[mi*bs:(mi+1)*bs])`:
the training step updates the network parameters (its returned cost is
bound to `cost_ij` and never used).  The ghost counter `train_calls` is
incremented. -/
def Config.trainStep {σ α β : Type} (c : Config σ α β) (s : EvalState σ α β)
    (minibatch_index : ℕ) : EvalState σ α β :=
  { s with
    params := c.train_fn s.params
      (slice s.data.train_x minibatch_index c.batch_size)
      (slice s.data.train_y minibatch_index c.batch_size)
    train_calls := s.train_calls + 1 }

/-- The body of `if (iter + 1) % validation_frequency == 0:` — evaluate the
validation loss; on a new best, bump `patience` when the improvement beats
the threshold, record `best_validation_loss` and `best_iter`, and evaluate
`test_score` on the test set.  The evaluation is also appended to the ghost
log `checks`. -/
def Config.validate {σ α β : Type} (c : Config σ α β) (s1 : EvalState σ α β)
    (iter : ℕ) : EvalState σ α β :=
  let this_validation_loss := c.valLoss s1.data s1.params
  let s1' : EvalState σ α β :=
    { s1 with checks := s1.checks ++ [⟨iter, this_validation_loss, s1.params⟩] }
  if ltInf this_validation_loss s1.best_validation_loss then
    { s1' with
      patience := if ltInfThresh this_validation_loss s1.best_validation_loss then
          max s1.patience (iter * patience_increase)
        else s1.patience
      best_validation_loss := some this_validation_loss
      best_iter := iter
      test_score := c.testLoss s1.data s1.params }
  else s1'

/-- `if patience <= iter: done_looping = True; break` — the `break` itself
is modelled in `Config.runBatches` by stopping when `done_looping` is set. -/
def checkPatience {σ α β : Type} (s2 : EvalState σ α β) (iter : ℕ) : EvalState σ α β :=
  if s2.patience ≤ iter then { s2 with done_looping := true } else s2

/-- One iteration of the inner `for minibatch_index in range(n_train_batches)`
body: compute `iter`, run the training step, run the periodic validation
check when `(iter + 1) % validation_frequency == 0`, then test
`patience <= iter`.  Returns `Except.error` exactly when Python would raise
`ZeroDivisionError` on `(iter + 1) % validation_frequency`. -/
def Config.step {σ α β : Type} (c : Config σ α β) (s : EvalState σ α β)
    (minibatch_index : ℕ) : Except PyErr (EvalState σ α β) :=
  let iter := (s.epoch - 1) * c.n_train_batches + minibatch_index
  if c.validation_frequency = 0 then Except.error PyErr.zeroDivision
  else
    let s1 := c.trainStep s minibatch_index
    let s2 := if (iter + 1) % c.validation_frequency = 0 then c.validate s1 iter else s1
    Except.ok (checkPatience s2 iter)

/-- The inner `for` loop over the remaining minibatch indices; a step that
sets `done_looping` executes the `break`, leaving the rest unprocessed. -/
def Config.runBatches {σ α β : Type} (c : Config σ α β) (s : EvalState σ α β) :
    List ℕ → Except PyErr (EvalState σ α β)
  | [] => Except.ok s
  | i :: rest =>
    match c.step s i with
    | Except.error e => Except.error e
    | Except.ok s' =>
      if s'.done_looping then Except.ok s' else c.runBatches s' rest

/-- The outer `while (epoch < n_epochs) and (not done_looping)` loop, run
with explicit fuel: `none` means the guard still held when the fuel ran
out.  Each iteration increments `epoch` and runs the inner `for` loop over
`range(n_train_batches)`.  Since `epoch` starts at `0` and grows by one per
iteration, fuel `n_epochs` always suffices (proved below). -/
def Config.loopFuel {σ α β : Type} (c : Config σ α β) :
    ℕ → EvalState σ α β → Option (Except PyErr (EvalState σ α β))
  | 0, s =>
    if s.epoch < c.n_epochs ∧ s.done_looping = false then none else some (Except.ok s)
  | f + 1, s =>
    if s.epoch < c.n_epochs ∧ s.done_looping = false then
      match c.runBatches { s with epoch := s.epoch + 1 } (List.range c.n_train_batches) with
      | Except.error e => some (Except.error e)
      | Except.ok s2 => c.loopFuel f s2
    else some (Except.ok s)

/-- Initial state of `evaluate_model`: `patience = 10000`,
`best_validation_loss = np.inf`, `best_iter = 0`, `test_score = 0.`,
`epoch = 0`, `done_looping = False`. -/
def initState {σ α β : Type} (data : Datasets α β) (p0 : σ) : EvalState σ α β :=
  { params := p0
    data := data
    patience := patience_init
    best_validation_loss := none
    best_iter := 0
    test_score := 0
    epoch := 0
    done_looping := false
    train_calls := 0
    checks := [] }

/-- `evaluate_model(train_fn, valid_fn, datasets, n_epochs, batch_size)`,
starting from network parameters `p0`: compute the per-split minibatch
counts and the validation frequency, then run the early-stopping loop. -/
def evaluate_model {σ α β : Type} (train_fn : σ → List α → List β → σ)
    (valid_fn : σ → List α → List β → ℚ) (datasets : Datasets α β)
    (n_epochs batch_size : ℕ) (p0 : σ) : Option (Except PyErr (EvalState σ α β)) :=
  (mkConfig train_fn valid_fn datasets n_epochs batch_size).loopFuel n_epochs
    (initState datasets p0)

/-! ### Specification-side definitions -/

/-- The best-model tracking discipline as a single fold step over the ghost
log: a logged validation check strictly below the current best replaces the
best loss, the best iteration, and the test score (the test-set mean error
of the parameters that were evaluated); otherwise nothing changes. -/
def bestStep {σ α β : Type} (c : Config σ α β) (data : Datasets α β)
    (acc : Option ℚ × ℕ × ℚ) (ch : ValCheck σ) : Option ℚ × ℕ × ℚ :=
  if ltInf ch.loss acc.1 then (some ch.loss, ch.iter, c.testLoss data ch.params) else acc

/-- `(best_validation_loss, best_iter, test_score)` as determined by the
ghost log of validation checks, starting from `(np.inf, 0, 0.)`. -/
def foldBest {σ α β : Type} (c : Config σ α β) (data : Datasets α β)
    (l : List (ValCheck σ)) : Option ℚ × ℕ × ℚ :=
  l.foldl (bestStep c data) (none, 0, 0)

/-- `x ≤ y` on loss values where `none` models `np.inf`: everything is
below infinity, and infinity is below nothing finite. -/
def leInf (x y : Option ℚ) : Prop :=
  match y with
  | none => True
  | some b =>
    match x with
    | none => False
    | some a => a ≤ b

/-- Running minimum step on losses, `none` being `np.inf`. -/
def minOpt : Option ℚ → ℚ → Option ℚ
  | none, x => some x
  | some b, x => some (min b x)

/-- The minimum of a list of losses, starting from `np.inf`. -/
def specMin (l : List ℚ) : Option ℚ := l.foldl minOpt none

/-- The arithmetic mean of `f` over `{0, …, n - 1}`, written as a sum
divided by the number of terms (the spec's reading of `np.mean` over the
first `n` minibatches). -/
def specMean (f : ℕ → ℚ) (n : ℕ) : ℚ := (Finset.range n).sum f / n

/-- Each split cut down to the examples that fit in complete minibatches:
the first `(length / bs) * bs` entries, where `length` is the length of the
`x` array of the split (the `y` array is always indexed with the minibatch
count derived from `x`). -/
def Datasets.truncate {α β : Type} (d : Datasets α β) (bs : ℕ) : Datasets α β :=
  { train_x := d.train_x.take (d.train_x.length / bs * bs)
    train_y := d.train_y.take (d.train_x.length / bs * bs)
    valid_x := d.valid_x.take (d.valid_x.length / bs * bs)
    valid_y := d.valid_y.take (d.valid_x.length / bs * bs)
    test_x := d.test_x.take (d.test_x.length / bs * bs)
    test_y := d.test_y.take (d.test_x.length / bs * bs) }

/-- The same state over a different store of datasets (used to compare a
run on the full datasets with a run on the truncated ones). -/
def EvalState.setData {σ α β : Type} (s : EvalState σ α β) (d : Datasets α β) :
    EvalState σ α β :=
  { s with data := d }

/-- Extract the final state of a successful run (returning `d` in the
other, never-reached cases). -/
def getOk {σ α β : Type} (d : EvalState σ α β) :
    Option (Except PyErr (EvalState σ α β)) → EvalState σ α β
  | some (Except.ok s) => s
  | _ => d

/-! ### A variant with a separate test function

Modelled from the spec: `compiling two computation graphs (a training step
and a validation/test step)`.  The variant below is the loop one would
write with a third compiled function `test_fn` used for the test-set
evaluation; the source instead applies `valid_fn` at both places, and the
refinement theorem for C6 states that the source loop is exactly this
variant instantiated with `test_fn := valid_fn`. -/

/-- Test-set mean error computed with an arbitrary evaluation function
`test_fn` instead of `valid_fn`. -/
def Config.testLossWith {σ α β : Type} (c : Config σ α β)
    (test_fn : σ → List α → List β → ℚ) (data : Datasets α β) (p : σ) : ℚ :=
  meanQ ((List.range c.n_test_batches).map (fun i =>
    test_fn p (slice data.test_x i c.batch_size) (slice data.test_y i c.batch_size)))

/-- `Config.validate` with the test-set evaluation performed by `test_fn`. -/
def Config.validateT {σ α β : Type} (c : Config σ α β)
    (test_fn : σ → List α → List β → ℚ) (s1 : EvalState σ α β)
    (iter : ℕ) : EvalState σ α β :=
  let this_validation_loss := c.valLoss s1.data s1.params
  let s1' : EvalState σ α β :=
    { s1 with checks := s1.checks ++ [⟨iter, this_validation_loss, s1.params⟩] }
  if ltInf this_validation_loss s1.best_validation_loss then
    { s1' with
      patience := if ltInfThresh this_validation_loss s1.best_validation_loss then
          max s1.patience (iter * patience_increase)
        else s1.patience
      best_validation_loss := some this_validation_loss
      best_iter := iter
      test_score := c.testLossWith test_fn s1.data s1.params }
  else s1'

/-- `Config.step` with the test-set evaluation performed by `test_fn`. -/
def Config.stepT {σ α β : Type} (c : Config σ α β)
    (test_fn : σ → List α → List β → ℚ) (s : EvalState σ α β)
    (minibatch_index : ℕ) : Except PyErr (EvalState σ α β) :=
  let iter := (s.epoch - 1) * c.n_train_batches + minibatch_index
  if c.validation_frequency = 0 then Except.error PyErr.zeroDivision
  else
    let s1 := c.trainStep s minibatch_index
    let s2 := if (iter + 1) % c.validation_frequency = 0 then c.validateT test_fn s1 iter else s1
    Except.ok (checkPatience s2 iter)

/-- `Config.runBatches` built on `Config.stepT`. -/
def Config.runBatchesT {σ α β : Type} (c : Config σ α β)
    (test_fn : σ → List α → List β → ℚ) (s : EvalState σ α β) :
    List ℕ → Except PyErr (EvalState σ α β)
  | [] => Except.ok s
  | i :: rest =>
    match c.stepT test_fn s i with
    | Except.error e => Except.error e
    | Except.ok s' =>
      if s'.done_looping then Except.ok s' else c.runBatchesT test_fn s' rest

/-- `Config.loopFuel` built on `Config.runBatchesT`. -/
def Config.loopFuelT {σ α β : Type} (c : Config σ α β)
    (test_fn : σ → List α → List β → ℚ) :
    ℕ → EvalState σ α β → Option (Except PyErr (EvalState σ α β))
  | 0, s =>
    if s.epoch < c.n_epochs ∧ s.done_looping = false then none else some (Except.ok s)
  | f + 1, s =>
    if s.epoch < c.n_epochs ∧ s.done_looping = false then
      match c.runBatchesT test_fn { s with epoch := s.epoch + 1 }
          (List.range c.n_train_batches) with
      | Except.error e => some (Except.error e)
      | Except.ok s2 => c.loopFuelT test_fn f s2
    else some (Except.ok s)

/-- `evaluate_model` as it would read with a separately compiled test
graph `test_fn`. -/
def evaluate_modelT {σ α β : Type} (train_fn : σ → List α → List β → σ)
    (valid_fn test_fn : σ → List α → List β → ℚ) (datasets : Datasets α β)
    (n_epochs batch_size : ℕ) (p0 : σ) : Option (Except PyErr (EvalState σ α β)) :=
  (mkConfig train_fn valid_fn datasets n_epochs batch_size).loopFuelT test_fn n_epochs
    (initState datasets p0)

/-! ### A concrete instance

A small concrete run used to exercise the theorems: one training minibatch
per epoch, two epochs, every iteration validated.  The parameter type is
`ℕ`, counting how many training steps have been applied; the evaluation
function recognises a test-set minibatch by its entries being `≥ 20`. -/

/-- Concrete datasets: one training example, one validation example (`10`),
one test example (`20`), batch size 1. -/
def dsW : Datasets ℕ ℕ :=
  { train_x := [0], train_y := [0], valid_x := [10], valid_y := [10],
    test_x := [20], test_y := [20] }

/-- Concrete training step: count the number of updates. -/
def trainW : ℕ → List ℕ → List ℕ → ℕ := fun p _ _ => p + 1

/-- Validation error of the model after `p` training steps: `1/2`, then a
worse `3/4`. -/
def valErrW (p : ℕ) : ℚ := if p = 1 then 1 / 2 else if p = 2 then 3 / 4 else 0

/-- Test error of the model after `p` training steps: `9/10`, then a much
better `1/10`. -/
def testErrW (p : ℕ) : ℚ := if p = 1 then 9 / 10 else if p = 2 then 1 / 10 else 0

/-- Concrete evaluation function: dispatch on whether the minibatch comes
from the test split. -/
def validW (p : ℕ) (xs : List ℕ) (_ys : List ℕ) : ℚ :=
  if 20 ≤ xs.headD 0 then testErrW p else valErrW p

/-- The `Config` computed on entry for the concrete instance
(`n_epochs = 2`, `batch_size = 1`). -/
def cW : Config ℕ ℕ ℕ := mkConfig trainW validW dsW 2 1

/-- The final state of the concrete run (`evaluate_model trainW validW dsW 2 1 0`),
computed below in `runW_eq`: two training steps, both validated; the first
check improves on `np.inf` and records test error `9/10`; the second is
worse (`3/4 > 1/2`) and changes nothing. -/
def sW : EvalState ℕ ℕ ℕ :=
  { params := 2, data := dsW, patience := 10000, best_validation_loss := some (1/2),
    best_iter := 0, test_score := 9/10, epoch := 2, done_looping := false,
    train_calls := 2, checks := [⟨0, 1/2, 1⟩, ⟨1, 3/4, 2⟩] }

/-! ### Basic facts about one loop-body step -/

section StepLemmas

variable {σ α β : Type} (c : Config σ α β)

theorem trainStep_data (s : EvalState σ α β) (i : ℕ) : (c.trainStep s i).data = s.data := rfl

theorem trainStep_epoch (s : EvalState σ α β) (i : ℕ) : (c.trainStep s i).epoch = s.epoch := rfl

theorem trainStep_patience (s : EvalState σ α β) (i : ℕ) :
    (c.trainStep s i).patience = s.patience := rfl

theorem trainStep_best (s : EvalState σ α β) (i : ℕ) :
    (c.trainStep s i).best_validation_loss = s.best_validation_loss := rfl

theorem trainStep_done (s : EvalState σ α β) (i : ℕ) :
    (c.trainStep s i).done_looping = s.done_looping := rfl

theorem trainStep_calls (s : EvalState σ α β) (i : ℕ) :
    (c.trainStep s i).train_calls = s.train_calls + 1 := rfl

theorem trainStep_checks (s : EvalState σ α β) (i : ℕ) :
    (c.trainStep s i).checks = s.checks := rfl

theorem trainStep_best_iter (s : EvalState σ α β) (i : ℕ) :
    (c.trainStep s i).best_iter = s.best_iter := rfl

theorem trainStep_test_score (s : EvalState σ α β) (i : ℕ) :
    (c.trainStep s i).test_score = s.test_score := rfl

theorem validate_data (s : EvalState σ α β) (iter : ℕ) :
    (c.validate s iter).data = s.data := by
  simp only [Config.validate]; split <;> rfl

theorem validate_epoch (s : EvalState σ α β) (iter : ℕ) :
    (c.validate s iter).epoch = s.epoch := by
  simp only [Config.validate]; split <;> rfl

theorem validate_done (s : EvalState σ α β) (iter : ℕ) :
    (c.validate s iter).done_looping = s.done_looping := by
  simp only [Config.validate]; split <;> rfl

theorem validate_params (s : EvalState σ α β) (iter : ℕ) :
    (c.validate s iter).params = s.params := by
  simp only [Config.validate]; split <;> rfl

theorem validate_calls (s : EvalState σ α β) (iter : ℕ) :
    (c.validate s iter).train_calls = s.train_calls := by
  simp only [Config.validate]; split <;> rfl

theorem validate_checks (s : EvalState σ α β) (iter : ℕ) :
    (c.validate s iter).checks =
      s.checks ++ [⟨iter, c.valLoss s.data s.params, s.params⟩] := by
  simp only [Config.validate]; split <;> rfl

theorem validate_patience_le (s : EvalState σ α β) (iter : ℕ) :
    s.patience ≤ (c.validate s iter).patience := by
  simp only [Config.validate]
  split
  · split
    · exact Nat.le_max_left _ _
    · exact Nat.le_refl _
  · exact Nat.le_refl _

theorem checkPatience_data (s : EvalState σ α β) (iter : ℕ) :
    (checkPatience s iter).data = s.data := by
  unfold checkPatience; split <;> rfl

theorem checkPatience_epoch (s : EvalState σ α β) (iter : ℕ) :
    (checkPatience s iter).epoch = s.epoch := by
  unfold checkPatience; split <;> rfl

theorem checkPatience_patience (s : EvalState σ α β) (iter : ℕ) :
    (checkPatience s iter).patience = s.patience := by
  unfold checkPatience; split <;> rfl

theorem checkPatience_calls (s : EvalState σ α β) (iter : ℕ) :
    (checkPatience s iter).train_calls = s.train_calls := by
  unfold checkPatience; split <;> rfl

theorem checkPatience_checks (s : EvalState σ α β) (iter : ℕ) :
    (checkPatience s iter).checks = s.checks := by
  unfold checkPatience; split <;> rfl

theorem checkPatience_best (s : EvalState σ α β) (iter : ℕ) :
    (checkPatience s iter).best_validation_loss = s.best_validation_loss := by
  unfold checkPatience; split <;> rfl

theorem checkPatience_best_iter (s : EvalState σ α β) (iter : ℕ) :
    (checkPatience s iter).best_iter = s.best_iter := by
  unfold checkPatience; split <;> rfl

theorem checkPatience_test_score (s : EvalState σ α β) (iter : ℕ) :
    (checkPatience s iter).test_score = s.test_score := by
  unfold checkPatience; split <;> rfl

theorem checkPatience_done_iff (s : EvalState σ α β) (iter : ℕ) :
    (checkPatience s iter).done_looping = (s.done_looping || decide (s.patience ≤ iter)) := by
  unfold checkPatience
  split
  · simp_all
  · simp_all

/-- The `iter` computed at epoch `s.epoch`, minibatch index `i`. -/
def iterOf {σ α β : Type} (c : Config σ α β) (s : EvalState σ α β) (i : ℕ) : ℕ :=
  (s.epoch - 1) * c.n_train_batches + i

/-- A step succeeds exactly when `validation_frequency ≠ 0`, and then its
result is the train step, the conditional validation check, and the
patience test, in that order. -/
theorem step_eq_ok (s : EvalState σ α β) (i : ℕ)
    (h : c.validation_frequency ≠ 0) :
    c.step s i = Except.ok (checkPatience
      (if (iterOf c s i + 1) % c.validation_frequency = 0 then
        c.validate (c.trainStep s i) (iterOf c s i)
      else c.trainStep s i) (iterOf c s i)) := by
  unfold Config.step iterOf
  simp [h]

theorem step_eq_error (s : EvalState σ α β) (i : ℕ)
    (h : c.validation_frequency = 0) :
    c.step s i = Except.error PyErr.zeroDivision := by
  unfold Config.step
  simp [h]

theorem step_ok_vf_ne (s s' : EvalState σ α β) (i : ℕ)
    (h : c.step s i = Except.ok s') : c.validation_frequency ≠ 0 := by
  intro hvf
  rw [step_eq_error c s i hvf] at h
  exact Except.noConfusion h

theorem step_ok_data (s s' : EvalState σ α β) (i : ℕ)
    (h : c.step s i = Except.ok s') : s'.data = s.data := by
  have hvf := step_ok_vf_ne c s s' i h
  rw [step_eq_ok c s i hvf] at h
  cases h
  rw [checkPatience_data]
  split
  · rw [validate_data, trainStep_data]
  · rw [trainStep_data]

theorem step_ok_epoch (s s' : EvalState σ α β) (i : ℕ)
    (h : c.step s i = Except.ok s') : s'.epoch = s.epoch := by
  have hvf := step_ok_vf_ne c s s' i h
  rw [step_eq_ok c s i hvf] at h
  cases h
  rw [checkPatience_epoch]
  split
  · rw [validate_epoch, trainStep_epoch]
  · rw [trainStep_epoch]

theorem step_ok_patience_le (s s' : EvalState σ α β) (i : ℕ)
    (h : c.step s i = Except.ok s') : s.patience ≤ s'.patience := by
  have hvf := step_ok_vf_ne c s s' i h
  rw [step_eq_ok c s i hvf] at h
  cases h
  rw [checkPatience_patience]
  split
  · exact le_trans (le_of_eq (trainStep_patience c s i).symm)
      (validate_patience_le c (c.trainStep s i) _)
  · exact le_of_eq (trainStep_patience c s i).symm

theorem step_ok_calls (s s' : EvalState σ α β) (i : ℕ)
    (h : c.step s i = Except.ok s') : s'.train_calls = s.train_calls + 1 := by
  have hvf := step_ok_vf_ne c s s' i h
  rw [step_eq_ok c s i hvf] at h
  cases h
  rw [checkPatience_calls]
  split
  · rw [validate_calls, trainStep_calls]
  · rw [trainStep_calls]

theorem step_ok_done_iff (s s' : EvalState σ α β) (i : ℕ)
    (h : c.step s i = Except.ok s') :
    s'.done_looping = (s.done_looping || decide (s'.patience ≤ iterOf c s i)) := by
  have hvf := step_ok_vf_ne c s s' i h
  rw [step_eq_ok c s i hvf] at h
  cases h
  rw [checkPatience_done_iff, checkPatience_patience]
  split
  · rw [validate_done, trainStep_done]
  · rw [trainStep_done]

end StepLemmas

/-! ### The inner for loop and the outer while loop -/

section LoopLemmas

variable {σ α β : Type} (c : Config σ α β)

theorem runBatches_nil (s : EvalState σ α β) : c.runBatches s [] = Except.ok s := rfl

theorem runBatches_ok_props (l : List ℕ) :
    ∀ s s' : EvalState σ α β, c.runBatches s l = Except.ok s' →
      s'.data = s.data ∧ s'.epoch = s.epoch ∧ s.patience ≤ s'.patience := by
  induction l with
  | nil =>
    intro s s' h
    rw [runBatches_nil] at h
    injection h with h
    subst h
    exact ⟨rfl, rfl, Nat.le_refl _⟩
  | cons i rest ih =>
    intro s s' h
    simp only [Config.runBatches] at h
    split at h
    · exact Except.noConfusion h
    · rename_i s1 hstep
      have hd := step_ok_data c s s1 i hstep
      have he := step_ok_epoch c s s1 i hstep
      have hp := step_ok_patience_le c s s1 i hstep
      split at h
      · injection h with h
        subst h
        exact ⟨hd, he, hp⟩
      · obtain ⟨h1, h2, h3⟩ := ih s1 s' h
        exact ⟨h1.trans hd, h2.trans he, hp.trans h3⟩

theorem runBatches_total (hvf : c.validation_frequency ≠ 0) (l : List ℕ) :
    ∀ s : EvalState σ α β, ∃ s', c.runBatches s l = Except.ok s' := by
  induction l with
  | nil => exact fun s => ⟨s, rfl⟩
  | cons i rest ih =>
    intro s
    obtain ⟨v, hv⟩ : ∃ v, c.step s i = Except.ok v := ⟨_, step_eq_ok c s i hvf⟩
    simp only [Config.runBatches, hv]
    by_cases hdone : v.done_looping = true
    · rw [if_pos hdone]
      exact ⟨v, rfl⟩
    · rw [if_neg hdone]
      exact ih v

theorem loopFuel_total (hn : c.validation_frequency = 0 → c.n_train_batches = 0) :
    ∀ (f : ℕ) (s : EvalState σ α β), c.n_epochs ≤ s.epoch + f →
      ∃ s', c.loopFuel f s = some (Except.ok s') ∧
        (c.n_epochs ≤ s'.epoch ∨ s'.done_looping = true) := by
  intro f
  induction f with
  | zero =>
    intro s hle
    have hg : ¬(s.epoch < c.n_epochs ∧ s.done_looping = false) := by
      rintro ⟨h1, _⟩
      omega
    refine ⟨s, ?_, ?_⟩
    · simp only [Config.loopFuel]
      rw [if_neg hg]
    · omega
  | succ f ihf =>
    intro s hle
    simp only [Config.loopFuel]
    by_cases hg : s.epoch < c.n_epochs ∧ s.done_looping = false
    · rw [if_pos hg]
      have hrb : ∃ s2, c.runBatches { s with epoch := s.epoch + 1 }
          (List.range c.n_train_batches) = Except.ok s2 := by
        by_cases hvf : c.validation_frequency = 0
        · rw [hn hvf, List.range_zero]
          exact ⟨_, rfl⟩
        · exact runBatches_total c hvf (List.range c.n_train_batches) _
      obtain ⟨s2, h2⟩ := hrb
      rw [h2]
      have hep : s2.epoch = s.epoch + 1 := (runBatches_ok_props c _ _ _ h2).2.1
      exact ihf s2 (by omega)
    · rw [if_neg hg]
      refine ⟨s, rfl, ?_⟩
      rcases not_and_or.mp hg with h | h
      · exact Or.inl (Nat.le_of_not_lt h)
      · exact Or.inr (by simpa using h)

theorem loopFuel_ok_props :
    ∀ (f : ℕ) (s s' : EvalState σ α β), c.loopFuel f s = some (Except.ok s') →
      s'.data = s.data ∧ s.patience ≤ s'.patience := by
  intro f
  induction f with
  | zero =>
    intro s s' h
    simp only [Config.loopFuel] at h
    split at h
    · exact Option.noConfusion h
    · injection h with h
      injection h with h
      subst h
      exact ⟨rfl, Nat.le_refl _⟩
  | succ f ihf =>
    intro s s' h
    simp only [Config.loopFuel] at h
    split at h
    · split at h
      · injection h with h
        exact Except.noConfusion h
      · rename_i s2 heq
        obtain ⟨hd, _, hp⟩ := runBatches_ok_props c _ _ _ heq
        obtain ⟨hd2, hp2⟩ := ihf s2 s' h
        exact ⟨hd2.trans hd, Nat.le_trans hp hp2⟩
    · injection h with h
      injection h with h
      subst h
      exact ⟨rfl, Nat.le_refl _⟩

end LoopLemmas

/-! ### C2: termination of `evaluate_model` -/

/-- C2: for every datasets triple, every `n_epochs ≥ 0` and every
`batch_size ≥ 1`, `evaluate_model` terminates (without any exception):
the nested loop exits once `epoch` reaches `n_epochs`, or earlier when a
minibatch iteration completes with `patience ≤ iter`, that is with
`done_looping` set by the inner `break`. -/
theorem C2_evaluate_model_terminates {σ α β : Type} (train_fn : σ → List α → List β → σ)
    (valid_fn : σ → List α → List β → ℚ) (datasets : Datasets α β)
    (n_epochs batch_size : ℕ) (p0 : σ) ( _hbs : 1 ≤ batch_size) :
    ∃ s', evaluate_model train_fn valid_fn datasets n_epochs batch_size p0 =
        some (Except.ok s') ∧ (n_epochs ≤ s'.epoch ∨ s'.done_looping = true) := by
  have hn : (mkConfig train_fn valid_fn datasets n_epochs batch_size).validation_frequency = 0 →
      (mkConfig train_fn valid_fn datasets n_epochs batch_size).n_train_batches = 0 := by
    intro h
    simp only [mkConfig, patience_init] at h ⊢
    omega
  obtain ⟨s', h1, h2⟩ :=
    loopFuel_total (mkConfig train_fn valid_fn datasets n_epochs batch_size) hn n_epochs
      (initState datasets p0) (Nat.le_add_left _ _)
  exact ⟨s', h1, h2⟩

/-- Witness for C2, on the concrete instance. -/
theorem C2_evaluate_model_terminates_witness :
    ∃ s', evaluate_model trainW validW dsW 2 1 0 = some (Except.ok s') ∧
      (2 ≤ s'.epoch ∨ s'.done_looping = true) :=
  C2_evaluate_model_terminates trainW validW dsW 2 1 0 (by decide)

/-- The concrete run evaluates to the final state `sW`. -/
theorem runW_eq : evaluate_model trainW validW dsW 2 1 0 = some (Except.ok sW) := by
  norm_num [evaluate_model, mkConfig, initState, Config.loopFuel, Config.runBatches,
    Config.step, Config.trainStep, Config.validate, checkPatience, Config.valLoss,
    Config.testLoss, meanQ, slice, ltInf, ltInfThresh, trainW, validW, dsW, valErrW,
    testErrW, patience_init, patience_increase, improvement_threshold, List.range_succ,
    sW]

/-! ### C4: monotonicity of the adaptive patience -/

/-- C4: adaptive patience is monotone.  `patience` starts at 10000; at a
validation check it is modified exactly when the new loss beats both the
current best and the improvement threshold, and then only by
`patience = max(patience, iter * 2)`; every successful loop-body step can
only raise it; and at the end of any successful run it is still at least
its initial value 10000 — it never decreases at any point of a run. -/
theorem C4_patience_monotone {σ α β : Type} (train_fn : σ → List α → List β → σ)
    (valid_fn : σ → List α → List β → ℚ) (datasets : Datasets α β)
    (n_epochs batch_size : ℕ) (p0 : σ) (s' : EvalState σ α β)
    (h : evaluate_model train_fn valid_fn datasets n_epochs batch_size p0 =
      some (Except.ok s')) :
    10000 ≤ s'.patience ∧
      (∀ (c : Config σ α β) (s : EvalState σ α β) (iter : ℕ),
        (c.validate s iter).patience =
          if ltInf (c.valLoss s.data s.params) s.best_validation_loss = true ∧
              ltInfThresh (c.valLoss s.data s.params) s.best_validation_loss = true then
            max s.patience (iter * patience_increase)
          else s.patience) ∧
      ∀ (c : Config σ α β) (s t : EvalState σ α β) (i : ℕ),
        c.step s i = Except.ok t → s.patience ≤ t.patience := by
  refine ⟨?_, ?_, ?_⟩
  · have h2 := (loopFuel_ok_props _ n_epochs (initState datasets p0) s' h).2
    simpa [initState, patience_init] using h2
  · intro c s iter
    simp only [Config.validate]
    split_ifs <;> simp_all
  · exact fun c s t i hst => step_ok_patience_le c s t i hst

/-- Witness for C4, on the concrete instance. -/
theorem C4_patience_monotone_witness :
    10000 ≤ sW.patience ∧
      (∀ (c : Config ℕ ℕ ℕ) (s : EvalState ℕ ℕ ℕ) (iter : ℕ),
        (c.validate s iter).patience =
          if ltInf (c.valLoss s.data s.params) s.best_validation_loss = true ∧
              ltInfThresh (c.valLoss s.data s.params) s.best_validation_loss = true then
            max s.patience (iter * patience_increase)
          else s.patience) ∧
      ∀ (c : Config ℕ ℕ ℕ) (s t : EvalState ℕ ℕ ℕ) (i : ℕ),
        c.step s i = Except.ok t → s.patience ≤ t.patience :=
  C4_patience_monotone trainW validW dsW 2 1 0 sW runW_eq

/-! ### C3: when validation runs -/

/-- C3: validation is periodic.  The frequency computed on entry is
`min(n_train_batches, patience // 2)` for the initial `patience = 10000`;
a loop-body step runs a validation check (appends to the ghost log) exactly
when `(iter + 1)` is divisible by it; and whenever
`1 ≤ n_train_batches ≤ 5000` the frequency equals `n_train_batches`, so
within any epoch the divisibility condition holds exactly at the last
minibatch index `n_train_batches - 1` — validation runs exactly once per
epoch, after its last minibatch. -/
theorem C3_validation_frequency {σ α β : Type} (train_fn : σ → List α → List β → σ)
    (valid_fn : σ → List α → List β → ℚ) (datasets : Datasets α β)
    (n_epochs batch_size : ℕ) (c : Config σ α β)
    (hc : c = mkConfig train_fn valid_fn datasets n_epochs batch_size) :
    c.validation_frequency = min c.n_train_batches (10000 / 2) ∧
    (∀ (s : EvalState σ α β) (i : ℕ), c.validation_frequency ≠ 0 →
      ∃ s', c.step s i = Except.ok s' ∧
        s'.checks = if (iterOf c s i + 1) % c.validation_frequency = 0 then
            s.checks ++ [⟨iterOf c s i, c.valLoss s.data (c.trainStep s i).params,
              (c.trainStep s i).params⟩]
          else s.checks) ∧
    (1 ≤ c.n_train_batches → c.n_train_batches ≤ 5000 →
      c.validation_frequency = c.n_train_batches ∧
      ∀ epoch mb : ℕ, 1 ≤ epoch → mb < c.n_train_batches →
        (((epoch - 1) * c.n_train_batches + mb + 1) % c.validation_frequency = 0 ↔
          mb = c.n_train_batches - 1)) := by
  refine ⟨?_, ?_, ?_⟩
  · subst hc
    simp [mkConfig, patience_init]
  · intro s i hvf
    refine ⟨_, step_eq_ok c s i hvf, ?_⟩
    rw [checkPatience_checks]
    by_cases hmod : (iterOf c s i + 1) % c.validation_frequency = 0
    · rw [if_pos hmod, if_pos hmod, validate_checks, trainStep_checks, trainStep_data]
    · rw [if_neg hmod, if_neg hmod, trainStep_checks]
  · intro h1 h2
    have hvf : c.validation_frequency = c.n_train_batches := by
      subst hc
      simp only [mkConfig, patience_init] at h1 h2 ⊢
      omega
    refine ⟨hvf, ?_⟩
    intro epoch mb he hmb
    rw [hvf, Nat.add_assoc, Nat.mul_comm, Nat.mul_add_mod]
    constructor
    · intro h
      have hdvd := Nat.dvd_of_mod_eq_zero h
      have hle := Nat.le_of_dvd (Nat.succ_pos mb) hdvd
      omega
    · intro h
      have : mb + 1 = c.n_train_batches := by omega
      rw [this, Nat.mod_self]

/-- Witness for C3, on the concrete instance (`n_train_batches = 1`). -/
theorem C3_validation_frequency_witness :
    cW.validation_frequency = min cW.n_train_batches (10000 / 2) ∧
    (∀ (s : EvalState ℕ ℕ ℕ) (i : ℕ), cW.validation_frequency ≠ 0 →
      ∃ s', cW.step s i = Except.ok s' ∧
        s'.checks = if (iterOf cW s i + 1) % cW.validation_frequency = 0 then
            s.checks ++ [⟨iterOf cW s i, cW.valLoss s.data (cW.trainStep s i).params,
              (cW.trainStep s i).params⟩]
          else s.checks) ∧
    (1 ≤ cW.n_train_batches → cW.n_train_batches ≤ 5000 →
      cW.validation_frequency = cW.n_train_batches ∧
      ∀ epoch mb : ℕ, 1 ≤ epoch → mb < cW.n_train_batches →
        (((epoch - 1) * cW.n_train_batches + mb + 1) % cW.validation_frequency = 0 ↔
          mb = cW.n_train_batches - 1)) :=
  C3_validation_frequency trainW validW dsW 2 1 cW rfl

/-! ### C5: validation and test errors are arithmetic means -/

/-- Sum of a function mapped over `List.range` equals the `Finset.range`
sum. -/
theorem sum_map_range (f : ℕ → ℚ) (n : ℕ) :
    ((List.range n).map f).sum = (Finset.range n).sum f := by
  induction n with
  | zero => simp
  | succ n ih =>
    rw [List.range_succ, List.map_append, List.sum_append, Finset.sum_range_succ, ih]
    simp

/-- `meanQ` over the first `n` minibatches is the spec's arithmetic mean. -/
theorem meanQ_map_range (f : ℕ → ℚ) (n : ℕ) :
    meanQ ((List.range n).map f) = specMean f n := by
  unfold meanQ specMean
  rw [sum_map_range]
  simp

/-- C5: at every validation check the evaluated `this_validation_loss` is
the arithmetic mean of `valid_fn` over the first `n_valid_batches`
consecutive size-`batch_size` minibatches of the validation set (that is
the loss entered in the ghost log), and the `test_score` recorded for a new
best model is likewise the mean of `valid_fn` over the first
`n_test_batches` minibatches of the test set. -/
theorem C5_losses_are_means {σ α β : Type} (c : Config σ α β) (data : Datasets α β)
    (p : σ) (s : EvalState σ α β) (iter : ℕ) :
    c.valLoss data p = specMean (fun i =>
      c.valid_fn p (slice data.valid_x i c.batch_size) (slice data.valid_y i c.batch_size))
      c.n_valid_batches ∧
    c.testLoss data p = specMean (fun i =>
      c.valid_fn p (slice data.test_x i c.batch_size) (slice data.test_y i c.batch_size))
      c.n_test_batches ∧
    (c.validate s iter).checks =
      s.checks ++ [⟨iter, c.valLoss s.data s.params, s.params⟩] ∧
    (ltInf (c.valLoss s.data s.params) s.best_validation_loss = true →
      (c.validate s iter).test_score = c.testLoss s.data s.params) := by
  refine ⟨meanQ_map_range _ _, meanQ_map_range _ _, validate_checks c s iter, ?_⟩
  intro himp
  simp only [Config.validate]
  rw [if_pos himp]

/-- Witness for C5, on the concrete instance. -/
theorem C5_losses_are_means_witness :
    cW.valLoss dsW 1 = specMean (fun i =>
      cW.valid_fn 1 (slice dsW.valid_x i cW.batch_size) (slice dsW.valid_y i cW.batch_size))
      cW.n_valid_batches ∧
    cW.testLoss dsW 1 = specMean (fun i =>
      cW.valid_fn 1 (slice dsW.test_x i cW.batch_size) (slice dsW.test_y i cW.batch_size))
      cW.n_test_batches ∧
    (cW.validate (initState dsW 0) 0).checks =
      (initState dsW 0).checks ++
        [⟨0, cW.valLoss (initState dsW 0).data (initState dsW 0).params,
          (initState dsW 0).params⟩] ∧
    (ltInf (cW.valLoss (initState dsW 0).data (initState dsW 0).params)
        (initState dsW 0).best_validation_loss = true →
      (cW.validate (initState dsW 0) 0).test_score =
        cW.testLoss (initState dsW 0).data (initState dsW 0).params) :=
  C5_losses_are_means cW dsW 1 (initState dsW 0) 0

/-! ### C10: the datasets are never modified -/

/-- C10: `evaluate_model` never modifies its datasets argument: modelling
the datasets as part of the mutable store, every successful run ends with
the store's three dataset splits equal to the ones passed in; only the
network parameters and the loop's own variables change. -/
theorem C10_datasets_unchanged {σ α β : Type} (train_fn : σ → List α → List β → σ)
    (valid_fn : σ → List α → List β → ℚ) (datasets : Datasets α β)
    (n_epochs batch_size : ℕ) (p0 : σ) (s' : EvalState σ α β)
    (h : evaluate_model train_fn valid_fn datasets n_epochs batch_size p0 =
      some (Except.ok s')) :
    s'.data = datasets := by
  have h1 := (loopFuel_ok_props _ n_epochs (initState datasets p0) s' h).1
  simpa [initState] using h1

/-- Witness for C10, on the concrete instance. -/
theorem C10_datasets_unchanged_witness : sW.data = dsW :=
  C10_datasets_unchanged trainW validW dsW 2 1 0 sW runW_eq

/-! ### Best-model tracking: the fold invariant -/

section TrackLemmas

variable {σ α β : Type} (c : Config σ α β)

theorem leInf_refl (b : Option ℚ) : leInf b b := by
  cases b with
  | none => trivial
  | some q => exact le_refl q

theorem leInf_trans {a b d : Option ℚ} (h1 : leInf a b) (h2 : leInf b d) : leInf a d := by
  cases d with
  | none => trivial
  | some qd =>
    cases b with
    | none => exact h2.elim
    | some qb =>
      cases a with
      | none => exact h1.elim
      | some qa => exact le_trans (α := ℚ) h1 h2

theorem validate_best (s : EvalState σ α β) (iter : ℕ) :
    (c.validate s iter).best_validation_loss =
      if ltInf (c.valLoss s.data s.params) s.best_validation_loss then
        some (c.valLoss s.data s.params)
      else s.best_validation_loss := by
  simp only [Config.validate]
  split_ifs <;> rfl

theorem validate_best_iter (s : EvalState σ α β) (iter : ℕ) :
    (c.validate s iter).best_iter =
      if ltInf (c.valLoss s.data s.params) s.best_validation_loss then iter
      else s.best_iter := by
  simp only [Config.validate]
  split_ifs <;> rfl

theorem validate_test_score (s : EvalState σ α β) (iter : ℕ) :
    (c.validate s iter).test_score =
      if ltInf (c.valLoss s.data s.params) s.best_validation_loss then
        c.testLoss s.data s.params
      else s.test_score := by
  simp only [Config.validate]
  split_ifs <;> rfl

theorem ltInf_to_le {x : ℚ} {b : Option ℚ} (h : ltInf x b = true) : leInf (some x) b := by
  cases b with
  | none => trivial
  | some q =>
    simp only [ltInf, decide_eq_true_eq] at h
    exact le_of_lt h

theorem validate_best_le (s : EvalState σ α β) (iter : ℕ) :
    leInf (c.validate s iter).best_validation_loss s.best_validation_loss := by
  rw [validate_best]
  split_ifs with h
  · exact ltInf_to_le h
  · exact leInf_refl _

theorem step_ok_best_le (s s' : EvalState σ α β) (i : ℕ)
    (h : c.step s i = Except.ok s') :
    leInf s'.best_validation_loss s.best_validation_loss := by
  have hvf := step_ok_vf_ne c s s' i h
  rw [step_eq_ok c s i hvf] at h
  injection h with h
  subst h
  rw [checkPatience_best]
  split
  · exact validate_best_le c (c.trainStep s i) _
  · rw [trainStep_best]
    exact leInf_refl _

/-- The triple updated by a validation check is exactly one `bestStep` on
the logged entry. -/
theorem validate_triple (s : EvalState σ α β) (iter : ℕ) :
    ((c.validate s iter).best_validation_loss, (c.validate s iter).best_iter,
      (c.validate s iter).test_score) =
      bestStep c s.data (s.best_validation_loss, s.best_iter, s.test_score)
        ⟨iter, c.valLoss s.data s.params, s.params⟩ := by
  rw [validate_best, validate_best_iter, validate_test_score]
  unfold bestStep
  dsimp only
  split_ifs with h
  · rfl
  · rfl

theorem foldBest_append (data : Datasets α β) (l : List (ValCheck σ)) (ch : ValCheck σ) :
    foldBest c data (l ++ [ch]) = bestStep c data (foldBest c data l) ch := by
  unfold foldBest
  rw [List.foldl_append]
  rfl

theorem step_ok_track (data : Datasets α β) (s s' : EvalState σ α β) (i : ℕ)
    (hd : s.data = data) (hst : c.step s i = Except.ok s')
    (h : (s.best_validation_loss, s.best_iter, s.test_score) =
      foldBest c data s.checks) :
    (s'.best_validation_loss, s'.best_iter, s'.test_score) =
      foldBest c data s'.checks := by
  have hvf := step_ok_vf_ne c s s' i hst
  rw [step_eq_ok c s i hvf] at hst
  injection hst with hst
  subst hst
  rw [checkPatience_best, checkPatience_best_iter, checkPatience_test_score,
    checkPatience_checks]
  split
  · rw [validate_triple, validate_checks, trainStep_checks, trainStep_data,
      trainStep_best, trainStep_best_iter, trainStep_test_score, hd,
      foldBest_append, ← h]
  · rw [trainStep_checks, trainStep_best, trainStep_best_iter, trainStep_test_score]
    exact h

theorem runBatches_track (data : Datasets α β) (l : List ℕ) :
    ∀ s s' : EvalState σ α β, s.data = data → c.runBatches s l = Except.ok s' →
      (s.best_validation_loss, s.best_iter, s.test_score) = foldBest c data s.checks →
      (s'.best_validation_loss, s'.best_iter, s'.test_score) = foldBest c data s'.checks := by
  induction l with
  | nil =>
    intro s s' hd h hinv
    rw [runBatches_nil] at h
    injection h with h
    subst h
    exact hinv
  | cons i rest ih =>
    intro s s' hd h hinv
    simp only [Config.runBatches] at h
    split at h
    · exact Except.noConfusion h
    · rename_i s1 hstep
      have h1 := step_ok_track c data s s1 i hd hstep hinv
      have hd1 : s1.data = data := (step_ok_data c s s1 i hstep).trans hd
      split at h
      · injection h with h
        subst h
        exact h1
      · exact ih s1 s' hd1 h h1

theorem loopFuel_track (data : Datasets α β) :
    ∀ (f : ℕ) (s s' : EvalState σ α β), s.data = data →
      c.loopFuel f s = some (Except.ok s') →
      (s.best_validation_loss, s.best_iter, s.test_score) = foldBest c data s.checks →
      (s'.best_validation_loss, s'.best_iter, s'.test_score) = foldBest c data s'.checks := by
  intro f
  induction f with
  | zero =>
    intro s s' hd h hinv
    simp only [Config.loopFuel] at h
    split at h
    · exact Option.noConfusion h
    · injection h with h
      injection h with h
      subst h
      exact hinv
  | succ f ihf =>
    intro s s' hd h hinv
    simp only [Config.loopFuel] at h
    split at h
    · split at h
      · injection h with h
        exact Except.noConfusion h
      · rename_i s2 heq
        have h1 := runBatches_track c data (List.range c.n_train_batches)
          { s with epoch := s.epoch + 1 } s2 hd heq hinv
        have hd2 : s2.data = data :=
          ((runBatches_ok_props c _ _ _ heq).1).trans hd
        exact ihf s2 s' hd2 h h1
    · injection h with h
      injection h with h
      subst h
      exact hinv

theorem bestStep_fst (data : Datasets α β) (acc : Option ℚ × ℕ × ℚ) (ch : ValCheck σ) :
    (bestStep c data acc ch).1 = minOpt acc.1 ch.loss := by
  unfold bestStep minOpt
  cases hacc : acc.1 with
  | none => simp [ltInf]
  | some b =>
    simp only [ltInf]
    by_cases hlt : ch.loss < b
    · rw [if_pos (by simpa using hlt)]
      simp [min_eq_right (le_of_lt hlt)]
    · rw [if_neg (by simpa using hlt)]
      simp [hacc, min_eq_left (le_of_not_lt hlt)]

theorem foldl_bestStep_fst (data : Datasets α β) (l : List (ValCheck σ)) :
    ∀ acc : Option ℚ × ℕ × ℚ,
      (l.foldl (bestStep c data) acc).1 = (l.map ValCheck.loss).foldl minOpt acc.1 := by
  induction l with
  | nil => intro acc; rfl
  | cons ch rest ih =>
    intro acc
    simp only [List.foldl_cons, List.map_cons]
    rw [ih, bestStep_fst]

theorem bestStep_le_acc (data : Datasets α β) (acc : Option ℚ × ℕ × ℚ) (ch : ValCheck σ) :
    leInf (bestStep c data acc ch).1 acc.1 := by
  unfold bestStep
  split_ifs with h
  · cases hacc : acc.1 with
    | none => trivial
    | some b =>
      rw [hacc] at h
      simp only [ltInf, decide_eq_true_eq] at h
      exact le_of_lt h
  · exact leInf_refl _

theorem bestStep_le_ch (data : Datasets α β) (acc : Option ℚ × ℕ × ℚ) (ch : ValCheck σ) :
    leInf (bestStep c data acc ch).1 (some ch.loss) := by
  unfold bestStep
  split_ifs with h
  · exact le_refl _
  · cases hacc : acc.1 with
    | none =>
      rw [hacc] at h
      exact absurd rfl h
    | some b =>
      rw [hacc] at h
      simp only [ltInf, decide_eq_true_eq] at h
      exact le_of_not_lt h

theorem foldl_bestStep_le_acc (data : Datasets α β) (l : List (ValCheck σ)) :
    ∀ acc : Option ℚ × ℕ × ℚ, leInf (l.foldl (bestStep c data) acc).1 acc.1 := by
  induction l with
  | nil => intro acc; exact leInf_refl _
  | cons ch rest ih =>
    intro acc
    simp only [List.foldl_cons]
    exact leInf_trans (ih (bestStep c data acc ch)) (bestStep_le_acc c data acc ch)

theorem foldl_bestStep_le (data : Datasets α β) (l : List (ValCheck σ)) :
    ∀ (acc : Option ℚ × ℕ × ℚ) (ch : ValCheck σ), ch ∈ l →
      leInf (l.foldl (bestStep c data) acc).1 (some ch.loss) := by
  induction l with
  | nil => intro acc ch h; exact absurd h (List.not_mem_nil ch)
  | cons ch0 rest ih =>
    intro acc ch h
    simp only [List.foldl_cons]
    rcases List.mem_cons.mp h with h | h
    · subst h
      exact leInf_trans (foldl_bestStep_le_acc c data rest (bestStep c data acc ch))
        (bestStep_le_ch c data acc ch)
    · exact ih (bestStep c data acc ch0) ch h

theorem foldl_bestStep_cases (data : Datasets α β) (l : List (ValCheck σ)) :
    ∀ acc : Option ℚ × ℕ × ℚ,
      l.foldl (bestStep c data) acc = acc ∨
        ∃ ch ∈ l, l.foldl (bestStep c data) acc =
          (some ch.loss, ch.iter, c.testLoss data ch.params) := by
  induction l with
  | nil => intro acc; exact Or.inl rfl
  | cons ch0 rest ih =>
    intro acc
    simp only [List.foldl_cons]
    rcases ih (bestStep c data acc ch0) with h | ⟨ch, hmem, h⟩
    · rw [h]
      unfold bestStep
      split_ifs with hlt
      · exact Or.inr ⟨ch0, List.mem_cons_self ch0 rest, rfl⟩
      · exact Or.inl rfl
    · exact Or.inr ⟨ch, List.mem_cons_of_mem ch0 hmem, h⟩

theorem ltInf_lt_trans {x y : ℚ} {b : Option ℚ} (hxy : x < y) (h : ltInf y b = true) :
    ltInf x b = true := by
  cases b with
  | none => rfl
  | some q =>
    simp only [ltInf, decide_eq_true_eq] at h ⊢
    exact lt_trans hxy h

/-- Updates are on strict improvement only, so the entry selected by the
fold is the first one attaining the minimum: the fold either never updates,
or the log splits around a selected entry whose loss is strictly below
every entry before it. -/
theorem foldl_bestStep_first (data : Datasets α β) (l : List (ValCheck σ)) :
    ∀ acc : Option ℚ × ℕ × ℚ,
      l.foldl (bestStep c data) acc = acc ∨
      ∃ l1 ch l2, l = l1 ++ ch :: l2 ∧
        l.foldl (bestStep c data) acc =
          (some ch.loss, ch.iter, c.testLoss data ch.params) ∧
        ltInf ch.loss acc.1 = true ∧
        ∀ ch' ∈ l1, ch.loss < ch'.loss := by
  induction l with
  | nil => intro acc; exact Or.inl rfl
  | cons ch0 rest ih =>
    intro acc
    simp only [List.foldl_cons]
    by_cases h0 : ltInf ch0.loss acc.1 = true
    · have hupd : bestStep c data acc ch0 =
          (some ch0.loss, ch0.iter, c.testLoss data ch0.params) := by
        unfold bestStep
        rw [if_pos h0]
      rw [hupd]
      rcases ih (some ch0.loss, ch0.iter, c.testLoss data ch0.params) with
        hL | ⟨r1, ch, r2, hsplit, hfold, hlt, hall⟩
      · refine Or.inr ⟨[], ch0, rest, rfl, hL, h0, ?_⟩
        intro ch' h'
        exact absurd h' (List.not_mem_nil ch')
      · have hcc : ch.loss < ch0.loss := by
          have h1 : ltInf ch.loss (some ch0.loss) = true := hlt
          simpa [ltInf, decide_eq_true_eq] using h1
        refine Or.inr ⟨ch0 :: r1, ch, r2, by rw [hsplit, List.cons_append], hfold,
          ltInf_lt_trans hcc h0, ?_⟩
        intro ch' h'
        rcases List.mem_cons.mp h' with h' | h'
        · subst h'
          exact hcc
        · exact hall ch' h'
    · have hupd : bestStep c data acc ch0 = acc := by
        unfold bestStep
        rw [if_neg h0]
      rw [hupd]
      rcases ih acc with hL | ⟨r1, ch, r2, hsplit, hfold, hlt, hall⟩
      · exact Or.inl hL
      · refine Or.inr ⟨ch0 :: r1, ch, r2, by rw [hsplit, List.cons_append], hfold, hlt, ?_⟩
        intro ch' h'
        rcases List.mem_cons.mp h' with h' | h'
        · rw [h']
          cases hacc : acc.1 with
          | none =>
            rw [hacc] at h0
            exact absurd rfl h0
          | some b =>
            rw [hacc] at hlt h0
            have h1 : ch.loss < b := by
              simpa [ltInf, decide_eq_true_eq] using hlt
            have h2 : b ≤ ch0.loss := by
              simp only [ltInf, decide_eq_true_eq] at h0
              exact le_of_not_lt h0
            exact lt_of_lt_of_le h1 h2
        · exact hall ch' h'

end TrackLemmas

/-! ### C9: the best-model tracking invariant -/

/-- C9: `best_validation_loss` never increases: every successful step can
only lower it; after any successful run the triple
`(best_validation_loss, best_iter, test_score)` equals the fold of the
strict-improvement update over the ghost log of validation checks — so
`best_iter` and `test_score` are updated exactly at the checks where the
running minimum strictly decreases, `best_iter` being the most recent (and,
with strict updates, the first) iteration attaining it — and
`best_validation_loss` equals the minimum of all validation losses computed
so far, starting from `np.inf`. -/
theorem C9_best_tracking {σ α β : Type} (train_fn : σ → List α → List β → σ)
    (valid_fn : σ → List α → List β → ℚ) (datasets : Datasets α β)
    (n_epochs batch_size : ℕ) (p0 : σ) (s' : EvalState σ α β)
    (h : evaluate_model train_fn valid_fn datasets n_epochs batch_size p0 =
      some (Except.ok s')) :
    (s'.best_validation_loss, s'.best_iter, s'.test_score) =
      foldBest (mkConfig train_fn valid_fn datasets n_epochs batch_size) datasets s'.checks ∧
    s'.best_validation_loss = specMin (s'.checks.map ValCheck.loss) ∧
    ∀ (c : Config σ α β) (s t : EvalState σ α β) (i : ℕ),
      c.step s i = Except.ok t → leInf t.best_validation_loss s.best_validation_loss := by
  have htrack := loopFuel_track (mkConfig train_fn valid_fn datasets n_epochs batch_size)
    datasets n_epochs (initState datasets p0) s' rfl h rfl
  refine ⟨htrack, ?_, fun c s t i hst => step_ok_best_le c s t i hst⟩
  have hfst := congrArg Prod.fst htrack
  simp only at hfst
  rw [hfst]
  unfold foldBest specMin
  exact foldl_bestStep_fst _ datasets s'.checks (none, 0, 0)

/-- Witness for C9, on the concrete instance. -/
theorem C9_best_tracking_witness :
    (sW.best_validation_loss, sW.best_iter, sW.test_score) =
      foldBest (mkConfig trainW validW dsW 2 1) dsW sW.checks ∧
    sW.best_validation_loss = specMin (sW.checks.map ValCheck.loss) ∧
    ∀ (c : Config ℕ ℕ ℕ) (s t : EvalState ℕ ℕ ℕ) (i : ℕ),
      c.step s i = Except.ok t → leInf t.best_validation_loss s.best_validation_loss :=
  C9_best_tracking trainW validW dsW 2 1 0 sW runW_eq

/-! ### C1: which model is recorded as best -/

/-- C1 (amended): the recorded best model is the one with the lowest
*validation* error, the earliest in case of ties: after any successful run,
`best_validation_loss` is at most every validation loss ever evaluated, and
(as soon as any check ran) the chronological log splits around a check at
iteration `best_iter` that attains it, with `test_score` equal to the
*test-set* mean error of that very model — not necessarily the lowest test
error among the models evaluated — and with every check logged before the
selected one having a strictly larger validation loss, so the selected
check is the earliest attaining the minimum (an update discipline taking
the latest tie would violate this clause). -/
theorem C1_best_by_validation {σ α β : Type} (train_fn : σ → List α → List β → σ)
    (valid_fn : σ → List α → List β → ℚ) (datasets : Datasets α β)
    (n_epochs batch_size : ℕ) (p0 : σ) (s' : EvalState σ α β)
    (h : evaluate_model train_fn valid_fn datasets n_epochs batch_size p0 =
      some (Except.ok s')) :
    (∀ ch ∈ s'.checks, leInf s'.best_validation_loss (some ch.loss)) ∧
    (s'.checks ≠ [] → ∃ l1 ch l2, s'.checks = l1 ++ ch :: l2 ∧
      ch.iter = s'.best_iter ∧
      s'.best_validation_loss = some ch.loss ∧
      s'.test_score =
        (mkConfig train_fn valid_fn datasets n_epochs batch_size).testLoss
          datasets ch.params ∧
      ∀ ch' ∈ l1, ch.loss < ch'.loss) := by
  have htrack := loopFuel_track (mkConfig train_fn valid_fn datasets n_epochs batch_size)
    datasets n_epochs (initState datasets p0) s' rfl h rfl
  have hfst := congrArg Prod.fst htrack
  simp only at hfst
  constructor
  · intro ch hch
    rw [hfst]
    exact foldl_bestStep_le _ datasets s'.checks (none, 0, 0) ch hch
  · intro hne
    rcases foldl_bestStep_first (mkConfig train_fn valid_fn datasets n_epochs batch_size)
        datasets s'.checks (none, 0, 0) with hA | ⟨l1, ch, l2, hsplit, hB, _, hall⟩
    · exfalso
      obtain ⟨ch0, hch0⟩ := List.exists_mem_of_ne_nil s'.checks hne
      have hle := foldl_bestStep_le (mkConfig train_fn valid_fn datasets n_epochs batch_size)
        datasets s'.checks (none, 0, 0) ch0 hch0
      rw [hA] at hle
      exact hle
    · obtain ⟨e1, e2, e3⟩ : s'.best_validation_loss = some ch.loss ∧
          s'.best_iter = ch.iter ∧
          s'.test_score =
            (mkConfig train_fn valid_fn datasets n_epochs batch_size).testLoss
              datasets ch.params := by
        have h2 := htrack.trans hB
        simpa [Prod.ext_iff] using h2
      exact ⟨l1, ch, l2, hsplit, e2.symm, e1, e3, hall⟩

/-- Witness for the amended C1, on the concrete instance. -/
theorem C1_best_by_validation_witness :
    (∀ ch ∈ sW.checks, leInf sW.best_validation_loss (some ch.loss)) ∧
    (sW.checks ≠ [] → ∃ l1 ch l2, sW.checks = l1 ++ ch :: l2 ∧
      ch.iter = sW.best_iter ∧
      sW.best_validation_loss = some ch.loss ∧
      sW.test_score = (mkConfig trainW validW dsW 2 1).testLoss dsW ch.params ∧
      ∀ ch' ∈ l1, ch.loss < ch'.loss) :=
  C1_best_by_validation trainW validW dsW 2 1 0 sW runW_eq

/-- C1, counterexample to the claim as stated: in the concrete run the
recorded best model is the one of iteration 0 (test error `9/10`), while
the model evaluated at iteration 1 — present in the log of evaluated
models — has the strictly smaller test error `1/10`: the best model is not
tracked by test error. -/
theorem C1_counterexample :
    evaluate_model trainW validW dsW 2 1 0 = some (Except.ok sW) ∧
    sW.best_iter = 0 ∧ sW.test_score = 9 / 10 ∧
    (∃ ch ∈ sW.checks, ch.iter = 1 ∧ ch.params = 2) ∧
    cW.testLoss dsW 2 < sW.test_score := by
  refine ⟨runW_eq, rfl, rfl, ⟨⟨1, 3 / 4, 2⟩, by simp [sW], rfl, rfl⟩, ?_⟩
  norm_num [Config.testLoss, cW, mkConfig, dsW, meanQ, slice, validW, testErrW, sW,
    List.range_succ]

/-! ### C7: how many training steps run -/

section CallsLemmas

variable {σ α β : Type} (c : Config σ α β)

/-- Inner-loop invariant for the training-step counter: starting the
remaining indices `i, …, n_train_batches - 1` of an epoch with
`train_calls` equal to the current `iter` and not exceeding `patience`,
the loop adds at most one call per index; it either finishes the epoch
with `train_calls = epoch * n_train_batches ≤ patience`, or breaks with
`train_calls ≤ patience + 1`. -/
theorem runBatches_calls ( _hvf : c.validation_frequency ≠ 0) :
    ∀ (k i : ℕ) (s s' : EvalState σ α β), i + k = c.n_train_batches →
      s.done_looping = false → 1 ≤ s.epoch →
      s.train_calls = (s.epoch - 1) * c.n_train_batches + i →
      s.train_calls ≤ s.patience →
      c.runBatches s (List.range' i k) = Except.ok s' →
      s'.epoch = s.epoch ∧ s'.train_calls ≤ s.train_calls + k ∧
      ((s'.done_looping = false ∧ s'.train_calls = s.epoch * c.n_train_batches ∧
          s'.train_calls ≤ s'.patience) ∨
        (s'.done_looping = true ∧ s'.train_calls ≤ s'.patience + 1)) := by
  intro k
  induction k with
  | zero =>
    intro i s s' hik hdone hep hcalls hcp h
    rw [show List.range' i 0 = [] from rfl, runBatches_nil] at h
    injection h with h
    subst h
    refine ⟨rfl, Nat.le_refl _, Or.inl ⟨hdone, ?_, hcp⟩⟩
    obtain ⟨e, he⟩ := Nat.exists_eq_succ_of_ne_zero (by omega : s.epoch ≠ 0)
    rw [hcalls, he]
    simp only [Nat.succ_sub_one, Nat.succ_mul]
    omega
  | succ k ih =>
    intro i s s' hik hdone hep hcalls hcp h
    rw [List.range'_succ] at h
    simp only [Config.runBatches] at h
    split at h
    · exact Except.noConfusion h
    · rename_i v hv
      have hcallsv := step_ok_calls c s v i hv
      have hepv := step_ok_epoch c s v i hv
      have hpv := step_ok_patience_le c s v i hv
      have hdv := step_ok_done_iff c s v i hv
      rw [hdone, Bool.false_or] at hdv
      have hiter : iterOf c s i = s.train_calls := by
        unfold iterOf
        omega
      split at h
      · rename_i hvdone
        injection h with h
        subst h
        exact ⟨hepv, by omega, Or.inr ⟨hvdone, by omega⟩⟩
      · rename_i hvdone
        have hvdone' : v.done_looping = false := by
          simpa using hvdone
        have hvp : s.train_calls < v.patience := by
          rw [hvdone'] at hdv
          have := of_decide_eq_false hdv.symm
          rw [hiter] at this
          omega
        obtain ⟨h1, h2, h3⟩ := ih (i + 1) v s' (by omega) hvdone' (by omega)
          (by rw [hcallsv, hcalls, hepv]; omega) (by omega) h
        refine ⟨h1.trans hepv, by omega, ?_⟩
        rw [hepv] at h3
        exact h3

/-- Outer-loop invariant for the training-step counter: with the epoch
boundary invariant holding, a run with fuel `f` adds at most
`f * n_train_batches` calls and ends with `train_calls ≤ patience + 1`. -/
theorem loopFuel_calls (hsafe : c.validation_frequency = 0 → c.n_train_batches = 0) :
    ∀ (f : ℕ) (s s' : EvalState σ α β),
      (s.done_looping = false →
        s.train_calls = s.epoch * c.n_train_batches ∧ s.train_calls ≤ s.patience) →
      (s.done_looping = true → s.train_calls ≤ s.patience + 1) →
      c.loopFuel f s = some (Except.ok s') →
      s'.train_calls ≤ s.train_calls + f * c.n_train_batches ∧
      s'.train_calls ≤ s'.patience + 1 := by
  intro f
  induction f with
  | zero =>
    intro s s' hinv hdinv h
    simp only [Config.loopFuel] at h
    split at h
    · exact Option.noConfusion h
    · injection h with h
      injection h with h
      subst h
      refine ⟨by omega, ?_⟩
      cases hdone : s.done_looping with
      | false => exact Nat.le_succ_of_le (hinv hdone).2
      | true => exact hdinv hdone
  | succ f ihf =>
    intro s s' hinv hdinv h
    simp only [Config.loopFuel] at h
    split at h
    · rename_i hg
      split at h
      · injection h with h
        exact Except.noConfusion h
      · rename_i s2 heq
        obtain ⟨hc0, hcp0⟩ := hinv hg.2
        by_cases hvf0 : c.validation_frequency = 0
        · have hn0 := hsafe hvf0
          rw [hn0, List.range_zero, runBatches_nil] at heq
          injection heq with heq
          subst heq
          have hres := ihf _ s'
            (fun _ => by
              constructor
              · simp only [hn0, Nat.mul_zero] at hc0 ⊢
                exact hc0
              · exact hcp0)
            (fun hd => by simp at hd ⊢; rw [hg.2] at hd; exact absurd hd (by simp)) h
          refine ⟨?_, hres.2⟩
          have hh := hres.1
          simp only [hn0, Nat.mul_zero, Nat.add_zero] at hh ⊢
          simpa using hh
        · rw [List.range_eq_range'] at heq
          obtain ⟨hep2, hadd2, hdisj2⟩ := runBatches_calls c hvf0 c.n_train_batches 0
            { s with epoch := s.epoch + 1 } s2 (by omega) hg.2 (by simp)
            (by simpa using hc0) hcp0 heq
          have hinv2 : s2.done_looping = false →
              s2.train_calls = s2.epoch * c.n_train_batches ∧
              s2.train_calls ≤ s2.patience := by
            intro hd2
            rcases hdisj2 with ⟨_, he, hp⟩ | ⟨hd, _⟩
            · rw [hep2]
              exact ⟨by simpa using he, hp⟩
            · rw [hd2] at hd
              exact absurd hd (by simp)
          have hdinv2 : s2.done_looping = true → s2.train_calls ≤ s2.patience + 1 := by
            intro hd2
            rcases hdisj2 with ⟨hd, _, _⟩ | ⟨_, hp⟩
            · rw [hd2] at hd
              exact absurd hd (by simp)
            · exact hp
          obtain ⟨hb1, hb2⟩ := ihf s2 s' hinv2 hdinv2 h
          refine ⟨?_, hb2⟩
          have hs2 : s2.train_calls ≤ s.train_calls + c.n_train_batches := by
            simpa using hadd2
          rw [Nat.succ_mul]
          omega
    · injection h with h
      injection h with h
      subst h
      refine ⟨by omega, ?_⟩
      cases hdone : s.done_looping with
      | false => exact Nat.le_succ_of_le (hinv hdone).2
      | true => exact hdinv hdone

end CallsLemmas

/-- C7: the total number of training-step calls (ghost-counted calls to
`train_fn`) in a successful run of `evaluate_model` is at most
`n_epochs * n_train_batches` and at most `P + 1` where `P` is the final
(by monotonicity, the largest) value of `patience`; in particular, if no
validation improvement ever raised `patience` above its initial 10000, at
most 10001 training steps execute. -/
theorem C7_train_calls_bound {σ α β : Type} (train_fn : σ → List α → List β → σ)
    (valid_fn : σ → List α → List β → ℚ) (datasets : Datasets α β)
    (n_epochs batch_size : ℕ) (p0 : σ) (s' : EvalState σ α β)
    (h : evaluate_model train_fn valid_fn datasets n_epochs batch_size p0 =
      some (Except.ok s')) :
    s'.train_calls ≤
      n_epochs * (mkConfig train_fn valid_fn datasets n_epochs batch_size).n_train_batches ∧
    s'.train_calls ≤ s'.patience + 1 ∧
    (s'.patience = 10000 → s'.train_calls ≤ 10001) := by
  have hsafe : (mkConfig train_fn valid_fn datasets n_epochs batch_size).validation_frequency = 0 →
      (mkConfig train_fn valid_fn datasets n_epochs batch_size).n_train_batches = 0 := by
    intro hvf
    simp only [mkConfig, patience_init] at hvf ⊢
    omega
  obtain ⟨h1, h2⟩ := loopFuel_calls (mkConfig train_fn valid_fn datasets n_epochs batch_size)
    hsafe n_epochs (initState datasets p0) s' (fun _ => ⟨by simp [initState], by simp [initState]⟩)
    (fun hd => by simp [initState] at hd) h
  refine ⟨by simpa [initState] using h1, h2, fun hp => by omega⟩

/-- Witness for C7, on the concrete instance. -/
theorem C7_train_calls_bound_witness :
    sW.train_calls ≤ 2 * (mkConfig trainW validW dsW 2 1).n_train_batches ∧
    sW.train_calls ≤ sW.patience + 1 ∧
    (sW.patience = 10000 → sW.train_calls ≤ 10001) :=
  C7_train_calls_bound trainW validW dsW 2 1 0 sW runW_eq

/-! ### C8: only complete minibatches are read -/

section TruncLemmas

variable {σ α β : Type} (c : Config σ α β) (d dt : Datasets α β)

/-- Cutting a list to its first `k * bs` elements does not change any of
its first `k` size-`bs` slices. -/
theorem slice_take {γ : Type} (l : List γ) (i k bs : ℕ) (hi : i < k) :
    slice (l.take (k * bs)) i bs = slice l i bs := by
  unfold slice
  rw [List.drop_take, List.take_take]
  congr 1
  have h1 : (i + 1) * bs ≤ k * bs := Nat.mul_le_mul_right bs hi
  rw [Nat.succ_mul] at h1
  omega

theorem valLoss_setData
    (hva : ∀ i < c.n_valid_batches,
      slice dt.valid_x i c.batch_size = slice d.valid_x i c.batch_size ∧
      slice dt.valid_y i c.batch_size = slice d.valid_y i c.batch_size)
    (p : σ) : c.valLoss dt p = c.valLoss d p := by
  unfold Config.valLoss
  congr 1
  apply List.map_congr_left
  intro j hj
  rw [List.mem_range] at hj
  rw [(hva j hj).1, (hva j hj).2]

theorem testLoss_setData
    (hte : ∀ i < c.n_test_batches,
      slice dt.test_x i c.batch_size = slice d.test_x i c.batch_size ∧
      slice dt.test_y i c.batch_size = slice d.test_y i c.batch_size)
    (p : σ) : c.testLoss dt p = c.testLoss d p := by
  unfold Config.testLoss
  congr 1
  apply List.map_congr_left
  intro j hj
  rw [List.mem_range] at hj
  rw [(hte j hj).1, (hte j hj).2]

theorem trainStep_setData
    (htr : ∀ i < c.n_train_batches,
      slice dt.train_x i c.batch_size = slice d.train_x i c.batch_size ∧
      slice dt.train_y i c.batch_size = slice d.train_y i c.batch_size)
    (s : EvalState σ α β) (i : ℕ) (hi : i < c.n_train_batches) (hsd : s.data = d) :
    c.trainStep (s.setData dt) i = (c.trainStep s i).setData dt := by
  simp only [Config.trainStep, EvalState.setData]
  rw [hsd, (htr i hi).1, (htr i hi).2]

theorem validate_setData
    (hva : ∀ i < c.n_valid_batches,
      slice dt.valid_x i c.batch_size = slice d.valid_x i c.batch_size ∧
      slice dt.valid_y i c.batch_size = slice d.valid_y i c.batch_size)
    (hte : ∀ i < c.n_test_batches,
      slice dt.test_x i c.batch_size = slice d.test_x i c.batch_size ∧
      slice dt.test_y i c.batch_size = slice d.test_y i c.batch_size)
    (t : EvalState σ α β) (iter : ℕ) (hsd : t.data = d) :
    c.validate (t.setData dt) iter = (c.validate t iter).setData dt := by
  have hL : c.valLoss dt t.params = c.valLoss t.data t.params := by
    rw [valLoss_setData c d dt hva, hsd]
  have hT : c.testLoss dt t.params = c.testLoss t.data t.params := by
    rw [testLoss_setData c d dt hte, hsd]
  simp only [Config.validate, EvalState.setData]
  rw [hL, hT]
  split_ifs <;> rfl

theorem checkPatience_setData (t : EvalState σ α β) (iter : ℕ) :
    checkPatience (t.setData dt) iter = (checkPatience t iter).setData dt := by
  simp only [checkPatience, EvalState.setData]
  split_ifs <;> rfl

theorem step_setData
    (htr : ∀ i < c.n_train_batches,
      slice dt.train_x i c.batch_size = slice d.train_x i c.batch_size ∧
      slice dt.train_y i c.batch_size = slice d.train_y i c.batch_size)
    (hva : ∀ i < c.n_valid_batches,
      slice dt.valid_x i c.batch_size = slice d.valid_x i c.batch_size ∧
      slice dt.valid_y i c.batch_size = slice d.valid_y i c.batch_size)
    (hte : ∀ i < c.n_test_batches,
      slice dt.test_x i c.batch_size = slice d.test_x i c.batch_size ∧
      slice dt.test_y i c.batch_size = slice d.test_y i c.batch_size)
    (s : EvalState σ α β) (i : ℕ) (hi : i < c.n_train_batches) (hsd : s.data = d) :
    c.step (s.setData dt) i =
      Except.map (fun t : EvalState σ α β => t.setData dt) (c.step s i) := by
  simp only [Config.step]
  rw [show (s.setData dt).epoch = s.epoch from rfl]
  by_cases hvf : c.validation_frequency = 0
  · rw [if_pos hvf, if_pos hvf]
    rfl
  · rw [if_neg hvf, if_neg hvf]
    rw [trainStep_setData c d dt htr s i hi hsd]
    have hdd : (c.trainStep s i).data = d := by
      rw [trainStep_data]
      exact hsd
    by_cases hcond :
        ((s.epoch - 1) * c.n_train_batches + i + 1) % c.validation_frequency = 0
    · rw [if_pos hcond, if_pos hcond,
        validate_setData c d dt hva hte (c.trainStep s i) _ hdd,
        checkPatience_setData]
      rfl
    · rw [if_neg hcond, if_neg hcond, checkPatience_setData]
      rfl

theorem runBatches_setData
    (htr : ∀ i < c.n_train_batches,
      slice dt.train_x i c.batch_size = slice d.train_x i c.batch_size ∧
      slice dt.train_y i c.batch_size = slice d.train_y i c.batch_size)
    (hva : ∀ i < c.n_valid_batches,
      slice dt.valid_x i c.batch_size = slice d.valid_x i c.batch_size ∧
      slice dt.valid_y i c.batch_size = slice d.valid_y i c.batch_size)
    (hte : ∀ i < c.n_test_batches,
      slice dt.test_x i c.batch_size = slice d.test_x i c.batch_size ∧
      slice dt.test_y i c.batch_size = slice d.test_y i c.batch_size)
    (l : List ℕ) :
    ∀ s : EvalState σ α β, (∀ j ∈ l, j < c.n_train_batches) → s.data = d →
      c.runBatches (s.setData dt) l =
        Except.map (fun t : EvalState σ α β => t.setData dt) (c.runBatches s l) := by
  induction l with
  | nil =>
    intro s hmem hsd
    rfl
  | cons i rest ih =>
    intro s hmem hsd
    simp only [Config.runBatches]
    rw [step_setData c d dt htr hva hte s i (hmem i (List.mem_cons_self i rest)) hsd]
    cases hstep : c.step s i with
    | error e => rfl
    | ok v =>
      dsimp only [Except.map]
      rw [show (v.setData dt).done_looping = v.done_looping from rfl]
      by_cases hdone : v.done_looping = true
      · rw [if_pos hdone, if_pos hdone]
      · rw [if_neg hdone, if_neg hdone]
        exact ih v (fun j hj => hmem j (List.mem_cons_of_mem i hj))
          ((step_ok_data c s v i hstep).trans hsd)

theorem loopFuel_setData
    (htr : ∀ i < c.n_train_batches,
      slice dt.train_x i c.batch_size = slice d.train_x i c.batch_size ∧
      slice dt.train_y i c.batch_size = slice d.train_y i c.batch_size)
    (hva : ∀ i < c.n_valid_batches,
      slice dt.valid_x i c.batch_size = slice d.valid_x i c.batch_size ∧
      slice dt.valid_y i c.batch_size = slice d.valid_y i c.batch_size)
    (hte : ∀ i < c.n_test_batches,
      slice dt.test_x i c.batch_size = slice d.test_x i c.batch_size ∧
      slice dt.test_y i c.batch_size = slice d.test_y i c.batch_size) :
    ∀ (f : ℕ) (s : EvalState σ α β), s.data = d →
      c.loopFuel f (s.setData dt) =
        Option.map (Except.map (fun t : EvalState σ α β => t.setData dt))
          (c.loopFuel f s) := by
  intro f
  induction f with
  | zero =>
    intro s hsd
    simp only [Config.loopFuel]
    show (if s.epoch < c.n_epochs ∧ s.done_looping = false then none
        else some (Except.ok (s.setData dt))) = _
    by_cases hg : s.epoch < c.n_epochs ∧ s.done_looping = false
    · rw [if_pos hg, if_pos hg]
      rfl
    · rw [if_neg hg, if_neg hg]
      rfl
  | succ f ihf =>
    intro s hsd
    simp only [Config.loopFuel]
    show (if s.epoch < c.n_epochs ∧ s.done_looping = false then
        match c.runBatches (({ s with epoch := s.epoch + 1 } : EvalState σ α β).setData dt)
            (List.range c.n_train_batches) with
        | Except.error e => some (Except.error e)
        | Except.ok s2 => c.loopFuel f s2
      else some (Except.ok (s.setData dt))) = _
    by_cases hg : s.epoch < c.n_epochs ∧ s.done_looping = false
    · rw [if_pos hg, if_pos hg,
        runBatches_setData c d dt htr hva hte (List.range c.n_train_batches)
          { s with epoch := s.epoch + 1 } (fun j hj => List.mem_range.mp hj) hsd]
      cases hrb : c.runBatches { s with epoch := s.epoch + 1 }
          (List.range c.n_train_batches) with
      | error e => rfl
      | ok s2 =>
        exact ihf s2 ((runBatches_ok_props c _ _ _ hrb).1.trans hsd)
    · rw [if_neg hg, if_neg hg]
      rfl

end TruncLemmas

/-- With a positive batch size, the minibatch counts computed from the
truncated datasets are the same as from the full ones. -/
theorem mkConfig_truncate {σ α β : Type} (train_fn : σ → List α → List β → σ)
    (valid_fn : σ → List α → List β → ℚ) (datasets : Datasets α β)
    (n_epochs batch_size : ℕ) (hbs : 0 < batch_size) :
    mkConfig train_fn valid_fn (datasets.truncate batch_size) n_epochs batch_size =
      mkConfig train_fn valid_fn datasets n_epochs batch_size := by
  have hx : ∀ l : List α,
      (l.take (l.length / batch_size * batch_size)).length / batch_size =
        l.length / batch_size := by
    intro l
    rw [List.length_take, min_eq_left (Nat.div_mul_le_self _ _),
      Nat.mul_div_cancel _ hbs]
  simp only [mkConfig, Datasets.truncate, Config.mk.injEq, true_and]
  exact ⟨hx _, hx _, hx _, by rw [hx]⟩

/-- With `n_train_batches = 0` the inner loop never runs: the outer loop
just counts the epochs up. -/
theorem loopFuel_no_batches {σ α β : Type} (c : Config σ α β)
    (hn : c.n_train_batches = 0) :
    ∀ (f : ℕ) (s : EvalState σ α β), s.done_looping = false →
      s.epoch + f = c.n_epochs →
      c.loopFuel f s = some (Except.ok { s with epoch := c.n_epochs }) := by
  intro f
  induction f with
  | zero =>
    intro s hdone hep
    simp only [Config.loopFuel]
    rw [if_neg (by omega : ¬(s.epoch < c.n_epochs ∧ s.done_looping = false))]
    rw [← hep]
    rfl
  | succ f ihf =>
    intro s hdone hep
    simp only [Config.loopFuel]
    rw [if_pos ⟨by omega, hdone⟩, hn, List.range_zero, runBatches_nil]
    exact ihf { s with epoch := s.epoch + 1 } hdone (by simp; omega)

/-- C8: for every split only the first `(length / batch_size) * batch_size`
examples matter — running `evaluate_model` on the datasets truncated to
complete minibatches produces the same run (same final state, up to the
stored datasets themselves).  In particular, if `batch_size` exceeds the
number of training examples, `n_train_batches = 0`, the inner loop body
never executes — so the `% validation_frequency` expression is never
evaluated and no `ZeroDivisionError` arises — and the run terminates
normally with `best_validation_loss = np.inf`, `test_score = 0`, no
training step taken and no validation check logged. -/
theorem C8_unused_trailing_examples {σ α β : Type} (train_fn : σ → List α → List β → σ)
    (valid_fn : σ → List α → List β → ℚ) (datasets : Datasets α β)
    (n_epochs batch_size : ℕ) (p0 : σ) (hbs : 0 < batch_size) :
    evaluate_model train_fn valid_fn (datasets.truncate batch_size) n_epochs batch_size p0 =
      Option.map (Except.map (fun t : EvalState σ α β =>
          t.setData (datasets.truncate batch_size)))
        (evaluate_model train_fn valid_fn datasets n_epochs batch_size p0) ∧
    (datasets.train_x.length < batch_size →
      evaluate_model train_fn valid_fn datasets n_epochs batch_size p0 =
        some (Except.ok { initState datasets p0 with epoch := n_epochs })) := by
  constructor
  · unfold evaluate_model
    rw [mkConfig_truncate train_fn valid_fn datasets n_epochs batch_size hbs]
    have hinit : initState (datasets.truncate batch_size) p0 =
        (initState datasets p0).setData (datasets.truncate batch_size) := rfl
    rw [hinit]
    apply loopFuel_setData (mkConfig train_fn valid_fn datasets n_epochs batch_size)
      datasets (datasets.truncate batch_size)
    · intro i hi
      exact ⟨slice_take _ i _ _ hi, slice_take _ i _ _ hi⟩
    · intro i hi
      exact ⟨slice_take _ i _ _ hi, slice_take _ i _ _ hi⟩
    · intro i hi
      exact ⟨slice_take _ i _ _ hi, slice_take _ i _ _ hi⟩
    · rfl
  · intro hlt
    unfold evaluate_model
    apply loopFuel_no_batches
    · show datasets.train_x.length / batch_size = 0
      exact Nat.div_eq_of_lt hlt
    · rfl
    · simp [initState, mkConfig]

/-- Witness for C8: batch size 2 exceeds the single training example of the
concrete datasets. -/
theorem C8_unused_trailing_examples_witness :
    (evaluate_model trainW validW (dsW.truncate 2) 3 2 0 =
      Option.map (Except.map (fun t : EvalState ℕ ℕ ℕ => t.setData (dsW.truncate 2)))
        (evaluate_model trainW validW dsW 3 2 0)) ∧
    (dsW.train_x.length < 2 →
      evaluate_model trainW validW dsW 3 2 0 =
        some (Except.ok { initState dsW 0 with epoch := 3 })) :=
  C8_unused_trailing_examples trainW validW dsW 3 2 0 (by decide)

/-! ### C6: the validation step and the test step are the same function -/

section TVariant

variable {σ α β : Type} (c : Config σ α β)

theorem validateT_valid_fn (s : EvalState σ α β) (iter : ℕ) :
    c.validateT c.valid_fn s iter = c.validate s iter := rfl

theorem stepT_valid_fn (s : EvalState σ α β) (i : ℕ) :
    c.stepT c.valid_fn s i = c.step s i := rfl

theorem runBatchesT_valid_fn (l : List ℕ) :
    ∀ s : EvalState σ α β, c.runBatchesT c.valid_fn s l = c.runBatches s l := by
  induction l with
  | nil => intro s; rfl
  | cons i rest ih =>
    intro s
    simp only [Config.runBatchesT, Config.runBatches]
    rw [stepT_valid_fn]
    cases hstep : c.step s i with
    | error e => rfl
    | ok v =>
      dsimp only
      by_cases hdone : v.done_looping = true
      · rw [if_pos hdone, if_pos hdone]
      · rw [if_neg hdone, if_neg hdone]
        exact ih v

theorem loopFuelT_valid_fn :
    ∀ (f : ℕ) (s : EvalState σ α β), c.loopFuelT c.valid_fn f s = c.loopFuel f s := by
  intro f
  induction f with
  | zero => intro s; rfl
  | succ f ihf =>
    intro s
    simp only [Config.loopFuelT, Config.loopFuel]
    rw [runBatchesT_valid_fn]
    by_cases hg : s.epoch < c.n_epochs ∧ s.done_looping = false
    · rw [if_pos hg, if_pos hg]
      cases hrb : c.runBatches { s with epoch := s.epoch + 1 }
          (List.range c.n_train_batches) with
      | error e => rfl
      | ok s2 => exact ihf s2
    · rw [if_neg hg, if_neg hg]

end TVariant

/-- C6: the validation step and the test step are the identical compiled
function.  The loop written with a separately compiled test function
(`evaluate_modelT`, modelled from the spec's words) instantiated with
`test_fn := valid_fn` is exactly the source loop `evaluate_model`: both the
periodic validation error and the test error of the best model apply the
single function `valid_fn`, with no separate test graph.  The two compiled
functions the loop consumes are exactly its two function arguments,
`train_fn` and `valid_fn`:  the test-set mean is `valid_fn`'s. -/
theorem C6_same_validation_test_function {σ α β : Type}
    (train_fn : σ → List α → List β → σ) (valid_fn : σ → List α → List β → ℚ)
    (datasets : Datasets α β) (n_epochs batch_size : ℕ) (p0 : σ) :
    evaluate_modelT train_fn valid_fn valid_fn datasets n_epochs batch_size p0 =
      evaluate_model train_fn valid_fn datasets n_epochs batch_size p0 ∧
    ∀ (c : Config σ α β) (data : Datasets α β) (p : σ),
      c.testLoss data p = c.testLossWith c.valid_fn data p := by
  constructor
  · unfold evaluate_modelT evaluate_model
    exact loopFuelT_valid_fn (mkConfig train_fn valid_fn datasets n_epochs batch_size)
      n_epochs (initState datasets p0)
  · intro c data p
    rfl

end LeNet5
